import Mathlib

/-!
Shallow embedding of `regeneratior` (`src/lib.rs`): a thread-backed generator.

The Rust code couples one consumer (`Generator::next`, the `Iterator` impl)
with one producer thread running the caller-supplied body against a
`Yielder`.  The only shared state is an `Arc<AtomicU64>` handshake counter
(`next_count`) and an `mpsc::channel` (unbounded, ordered, closed when the
`Sender` is dropped).  We embed the two threads as deterministic micro-step
functions (`wstep` for the worker, `cstep` for the consumer) over an explicit
system state `Sys`, and quantify over arbitrary interleavings via a schedule
(`run`).  Micro-step granularity follows the source's atomic operations:

`Generator::next` (lib.rs:41-52):
  - `self.coroutine.as_ref()?`              : handle `None` -> return `None`;
  - `coroutine.is_finished()` check         : one consumer step (idle -> join
     on finished worker, or move towards the increment);
  - `next_count.fetch_add(1, AcqRel)`       : one step (`toInc` -> `recv`);
  - `self.receiver.recv().ok()`             : blocks until an item is buffered
     or the sender is dropped.

`Yielder::yield` (lib.rs:63-70):
  - `while next_count.load(Acquire) == 0 { yield_now() }` : the `spin` state;
     a successful (non-zero) load moves to `dec`;
  - `next_count.fetch_sub(1, AcqRel)`       : the `dec` -> `send` step;
  - `sender.send(value).unwrap()`           : the `send` step; fails (worker
     panic) exactly when the receiver has been dropped.

The worker body is modelled as `Body`: the sequence of values it passes to
`Yielder::yield` in order, ending in a normal return or a panic.
`Yielder::yield_from` (lib.rs:72-76) is the fold of single yields.
The `AtomicU64` is a `Nat` with explicit wrap-around `% 2 ^ 64` on
`fetch_add` / `fetch_sub`.
-/

namespace Regen

/-- Worker body: the values handed to `Yielder::yield` in program order,
then either a normal return (`ret false`) or a panic (`ret true`). -/
inductive Body (T : Type) where
  | ret (panics : Bool)
  | yld (v : T) (k : Body T)
deriving DecidableEq

/-- `Yielder::yield_from` (lib.rs:72-76): `for i in iter { self.yield(i) }`,
one single-value yield per source element, in source order. -/
def yieldFrom {T : Type} (l : List T) (k : Body T) : Body T :=
  l.foldr Body.yld k

/-- The list of values a body emits. -/
def Body.emits {T : Type} : Body T → List T
  | .ret _ => []
  | .yld v k => k.emits.cons v

/-- Whether the body ends by panicking instead of returning normally. -/
def Body.panicsAtEnd {T : Type} : Body T → Bool
  | .ret p => p
  | .yld _ k => k.panicsAtEnd

/-- Worker program counter, at the granularity of the atomic operations in
`Yielder::yield`. -/
inductive WPC (T : Type) where
  | run (b : Body T)
  | spin (v : T) (k : Body T)
  | dec (v : T) (k : Body T)
  | send (v : T) (k : Body T)
  | done
  | wpanic
deriving DecidableEq

/-- Consumer program counter inside `Generator::next`. -/
inductive CPC where
  | idle
  | toInc
  | recv
  | cpanic
deriving DecidableEq

/-- Result of one completed `Generator::next` call: `Some(v)`, `None`, or a
propagated panic (from `join().unwrap()` on a panicked worker). -/
inductive PullResult (T : Type) where
  | item (v : T)
  | exhausted
  | panicked
deriving DecidableEq

/-- Full system state: the handshake counter, the channel buffer, liveness of
the two channel ends, the `Option<JoinHandle>` (`handle`), and the two program
counters. -/
structure Sys (T : Type) where
  counter : Nat
  buf : List T
  senderAlive : Bool
  receiverAlive : Bool
  handle : Bool
  worker : WPC T
  cons : CPC
deriving DecidableEq

/-- Modulus of the `AtomicU64` counter. -/
def U64MOD : Nat := 2 ^ 64

/-- `fetch_add(1)` on the `AtomicU64`, with wrap-around. -/
def incr (c : Nat) : Nat := (c + 1) % U64MOD

/-- `fetch_sub(1)` on the `AtomicU64`, with wrap-around. -/
def decr (c : Nat) : Nat := (c + (U64MOD - 1)) % U64MOD

/-- `JoinHandle::is_finished`: true once the worker thread has terminated,
normally or by panic. -/
def isFinished {T : Type} : WPC T → Bool
  | .done => true
  | .wpanic => true
  | _ => false

/-- One enabled micro-step of the worker thread (`none` = blocked in the spin
loop with counter `0`, or terminated).  Follows `Yielder::yield`
(lib.rs:63-70) and the end of the body (dropping the `Sender`). -/
def wstep {T : Type} (s : Sys T) : Option (Sys T) :=
  match s.worker with
  | .run (.yld v k) => some { s with worker := .spin v k }
  | .run (.ret p) =>
      if p then some { s with worker := .wpanic, senderAlive := false }
      else some { s with worker := .done, senderAlive := false }
  | .spin v k =>
      if s.counter = 0 then none
      else some { s with worker := .dec v k }
  | .dec v k => some { s with counter := decr s.counter, worker := .send v k }
  | .send v k =>
      if s.receiverAlive then some { s with buf := s.buf ++ [v], worker := .run k }
      else some { s with worker := .wpanic, senderAlive := false }
  | .done => none
  | .wpanic => none

/-- One enabled micro-step of the consumer inside `Generator::next`
(lib.rs:41-52); the second component is `some r` when the `next` call
completes with result `r` (`none` = internal step or blocked in `recv`). -/
def cstep {T : Type} (s : Sys T) : Option (Sys T × Option (PullResult T)) :=
  match s.cons with
  | .idle =>
      if s.handle then
        match s.worker with
        | .done => some ({ s with handle := false }, some .exhausted)
        | .wpanic => some ({ s with handle := false, cons := .cpanic }, some .panicked)
        | _ => some ({ s with cons := .toInc }, none)
      else
        some (s, some .exhausted)
  | .toInc => some ({ s with counter := incr s.counter, cons := .recv }, none)
  | .recv =>
      match s.buf with
      | x :: r => some ({ s with buf := r, cons := .idle }, some (.item x))
      | [] =>
          if s.senderAlive then none
          else some ({ s with cons := .idle }, some .exhausted)
  | .cpanic => none

/-- One scheduler step: `true` runs the worker, `false` the consumer; a
blocked or terminated thread stutters. -/
def step {T : Type} (who : Bool) (s : Sys T) : Sys T × Option (PullResult T) :=
  if who then
    match wstep s with
    | some s' => (s', none)
    | none => (s, none)
  else
    match cstep s with
    | some q => q
    | none => (s, none)

/-- Run a finite schedule, collecting the results of the completed
`Generator::next` calls in order. -/
def run {T : Type} : List Bool → Sys T → Sys T × List (PullResult T)
  | [], s => (s, [])
  | w :: rest, s =>
      let q := step w s
      let r := run rest q.1
      (r.1, q.2.toList ++ r.2)

/-- `Generator::new(body)` (lib.rs:19-35): counter `0`, empty channel, both
ends alive, join handle present, worker about to run the body, consumer idle. -/
def init {T : Type} (b : Body T) : Sys T :=
  ⟨0, [], true, true, true, .run b, .idle⟩

/-- The values carried by the `item` results of a pull trace. -/
def itemsOf {T : Type} (l : List (PullResult T)) : List T :=
  l.filterMap fun r =>
    match r with
    | .item v => some v
    | _ => none

/-- Number of `exhausted` (`None`) results in a pull trace. -/
def exCount {T : Type} (l : List (PullResult T)) : Nat :=
  (l.filter fun r =>
    match r with
    | .exhausted => true
    | _ => false).length

/-! ### List helpers -/

theorem drop_cons_lt {T : Type} {vs t : List T} {k : Nat} {v : T}
    (h : vs.drop k = v :: t) : k < vs.length := by
  by_contra hk
  push_neg at hk
  rw [List.drop_eq_nil_of_le hk] at h
  exact List.cons_ne_nil v t h.symm

theorem drop_succ_of_drop {T : Type} {vs t : List T} {k : Nat} {v : T}
    (h : vs.drop k = v :: t) : vs.drop (k + 1) = t := by
  have h2 : (vs.drop k).drop 1 = vs.drop (k + 1) := List.drop_drop 1 k vs
  rw [h] at h2
  simpa using h2.symm

theorem take_succ_of_drop {T : Type} {vs t : List T} {k : Nat} {v : T}
    (h : vs.drop k = v :: t) : vs.take (k + 1) = vs.take k ++ [v] := by
  induction vs generalizing k with
  | nil => simp at h
  | cons x xs ih =>
    cases k with
    | zero =>
      simp only [List.drop_zero] at h
      obtain ⟨h1, _⟩ := List.cons.inj h
      simp [h1]
    | succ k =>
      simp only [List.drop_succ_cons] at h
      simp [ih h]

theorem drop_nil_len {T : Type} {vs : List T} {k : Nat}
    (h : vs.drop k = []) : vs.length ≤ k :=
  List.drop_eq_nil_iff.mp h

theorem incr_zero : incr 0 = 1 := by decide

theorem decr_one : decr 1 = 0 := by decide

/-! ### The reachable-state invariant

`WAt vs p k w sa` says: the worker has already pushed the first `k` values
of `vs` into the channel and its program counter `w` is consistent with the
remaining body (`sa` tracks whether the sender is still alive). -/

def WAt {T : Type} (vs : List T) (p : Bool) (k : Nat) (w : WPC T) (sa : Bool) : Prop :=
  (∃ b, w = .run b ∧ b.emits = vs.drop k ∧ b.panicsAtEnd = p ∧ sa = true)
  ∨ (∃ v b, w = .spin v b ∧ vs.drop k = v :: b.emits ∧ b.panicsAtEnd = p ∧ sa = true)
  ∨ (w = .done ∧ p = false ∧ sa = false ∧ k = vs.length)
  ∨ (w = .wpanic ∧ p = true ∧ sa = false ∧ k = vs.length)

/-- `WAt` extended with the post-`fetch_sub` state `dec` (only reachable
while the consumer is blocked in `recv` with the counter consumed). -/
def WAtD {T : Type} (vs : List T) (p : Bool) (k : Nat) (w : WPC T) (sa : Bool) : Prop :=
  WAt vs p k w sa
  ∨ (∃ v b, w = .dec v b ∧ vs.drop k = v :: b.emits ∧ b.panicsAtEnd = p ∧ sa = true)

/-- Terminated worker consistent with the body's ending. -/
def WTermAt {T : Type} (p : Bool) (w : WPC T) : Prop :=
  (w = .done ∧ p = false) ∨ (w = .wpanic ∧ p = true)

/-- Invariant of the joint system: every state reachable from `init b` under
any interleaving is in one of these phases (`vs` = the body's emitted values,
`p` = whether the body panics at the end, second index = the pull results
observed so far). -/
inductive Inv {T : Type} (vs : List T) (p : Bool) : Sys T → List (PullResult T) → Prop where
  | phIdle (k : Nat) (w : WPC T) (sa : Bool) (hk : k ≤ vs.length) (hw : WAt vs p k w sa) :
      Inv vs p ⟨0, [], sa, true, true, w, .idle⟩ ((vs.take k).map .item)
  | phInc (k : Nat) (w : WPC T) (sa : Bool) (hk : k ≤ vs.length) (hw : WAt vs p k w sa) :
      Inv vs p ⟨0, [], sa, true, true, w, .toInc⟩ ((vs.take k).map .item)
  | phRecv (k : Nat) (w : WPC T) (sa : Bool) (hk : k ≤ vs.length) (hw : WAtD vs p k w sa) :
      Inv vs p ⟨1, [], sa, true, true, w, .recv⟩ ((vs.take k).map .item)
  | phSend (k : Nat) (v : T) (b : Body T) (hk : k ≤ vs.length)
      (hd : vs.drop k = v :: b.emits) (hb : b.panicsAtEnd = p) :
      Inv vs p ⟨0, [], true, true, true, .send v b, .recv⟩ ((vs.take k).map .item)
  | phBuf (k : Nat) (v : T) (w : WPC T) (sa : Bool) (hk : k + 1 ≤ vs.length)
      (hd : vs.drop k = v :: vs.drop (k + 1)) (hw : WAt vs p (k + 1) w sa) :
      Inv vs p ⟨0, [v], sa, true, true, w, .recv⟩ ((vs.take k).map .item)
  | phStr (w : WPC T) (hw : WTermAt p w) :
      Inv vs p ⟨1, [], false, true, true, w, .idle⟩ (vs.map .item ++ [.exhausted])
  | phTerm (c m : Nat) (hc : c ≤ 1) (hm : 1 ≤ m) (hp : p = false) :
      Inv vs p ⟨c, [], false, true, false, .done, .idle⟩
        (vs.map .item ++ List.replicate m .exhausted)
  | phPanic (c e : Nat) (hc : c ≤ 1) (he : e ≤ 1) (hp : p = true) :
      Inv vs p ⟨c, [], false, true, false, .wpanic, .cpanic⟩
        (vs.map .item ++ List.replicate e .exhausted ++ [.panicked])

/-- A worker scheduled while the counter is `0` either stutters (spin loop,
terminated) or moves between `WAt` positions without touching the counter,
the buffer, or the consumer. -/
theorem wstep_zero_cases {T : Type} {vs : List T} {p : Bool} {k : Nat} {w : WPC T} {sa : Bool}
    (hk : k ≤ vs.length) (hw : WAt vs p k w sa) (buf : List T) (cpc : CPC) :
    wstep (⟨0, buf, sa, true, true, w, cpc⟩ : Sys T) = none
    ∨ ∃ w' sa', wstep (⟨0, buf, sa, true, true, w, cpc⟩ : Sys T)
        = some ⟨0, buf, sa', true, true, w', cpc⟩ ∧ WAt vs p k w' sa' := by
  rcases hw with ⟨b, rfl, hb, hbp, rfl⟩ | ⟨v, b, rfl, hd, hbp, rfl⟩ |
    ⟨rfl, hp0, rfl, hkn⟩ | ⟨rfl, hp1, rfl, hkn⟩
  · cases b with
    | yld v k' =>
      refine Or.inr ⟨.spin v k', true, ?_, ?_⟩
      · simp [wstep]
      · exact Or.inr (Or.inl ⟨v, k', rfl, hb.symm, hbp, rfl⟩)
    | ret p' =>
      have hkn : k = vs.length := le_antisymm hk (drop_nil_len hb.symm)
      have hpp : p' = p := hbp
      cases p' with
      | false =>
        refine Or.inr ⟨.done, false, ?_, ?_⟩
        · simp [wstep]
        · exact Or.inr (Or.inr (Or.inl ⟨rfl, hpp.symm, rfl, hkn⟩))
      | true =>
        refine Or.inr ⟨.wpanic, false, ?_, ?_⟩
        · simp [wstep]
        · exact Or.inr (Or.inr (Or.inr ⟨rfl, hpp.symm, rfl, hkn⟩))
  · exact Or.inl (by simp [wstep])
  · exact Or.inl (by simp [wstep])
  · exact Or.inl (by simp [wstep])

theorem replicate_one_eq {α : Type} (a : α) : List.replicate 1 a = [a] := rfl

theorem replicate_two_eq {α : Type} (a : α) : List.replicate 2 a = [a, a] := rfl

/-- Preservation: one scheduler step (worker or consumer) keeps the system
inside the invariant, extending the observed pull trace accordingly. -/
theorem inv_step {T : Type} {vs : List T} {p : Bool} {s : Sys T} {outs : List (PullResult T)}
    (h : Inv vs p s outs) (who : Bool) :
    Inv vs p (step who s).1 (outs ++ (step who s).2.toList) := by
  cases h with
  | phIdle k w sa hk hw =>
    cases who with
    | true =>
      rcases wstep_zero_cases hk hw [] .idle with hn | ⟨w', sa', hs, hw'⟩
      · simpa [step, hn] using Inv.phIdle k w sa hk hw
      · simpa [step, hs] using Inv.phIdle k w' sa' hk hw'
    | false =>
      rcases hw with ⟨b, rfl, hb, hbp, rfl⟩ | ⟨v, b, rfl, hd, hbp, rfl⟩ |
        ⟨rfl, hp0, rfl, hkn⟩ | ⟨rfl, hp1, rfl, hkn⟩
      · simpa [step, cstep] using Inv.phInc k (.run b) true hk (Or.inl ⟨b, rfl, hb, hbp, rfl⟩)
      · simpa [step, cstep] using
          Inv.phInc k (.spin v b) true hk (Or.inr (Or.inl ⟨v, b, rfl, hd, hbp, rfl⟩))
      · subst hkn
        have h1 := @Inv.phTerm T vs p 0 1 (by omega) (by omega) hp0
        simpa [step, cstep, List.take_length, replicate_one_eq] using h1
      · subst hkn
        have h1 := @Inv.phPanic T vs p 0 0 (by omega) (by omega) hp1
        simpa [step, cstep, List.take_length] using h1
  | phInc k w sa hk hw =>
    cases who with
    | true =>
      rcases wstep_zero_cases hk hw [] .toInc with hn | ⟨w', sa', hs, hw'⟩
      · simpa [step, hn] using Inv.phInc k w sa hk hw
      · simpa [step, hs] using Inv.phInc k w' sa' hk hw'
    | false =>
      simpa [step, cstep, incr_zero] using Inv.phRecv k w sa hk (Or.inl hw)
  | phRecv k w sa hk hw =>
    cases who with
    | true =>
      rcases hw with hwa | ⟨v, b, rfl, hd, hbp, rfl⟩
      · have hwa0 := hwa
        rcases hwa with ⟨b, rfl, hb, hbp, rfl⟩ | ⟨v, b, rfl, hd, hbp, rfl⟩ |
          ⟨rfl, hp0, rfl, hkn⟩ | ⟨rfl, hp1, rfl, hkn⟩
        · cases b with
          | yld v k' =>
            simpa [step, wstep] using Inv.phRecv k (.spin v k') true hk
              (Or.inl (Or.inr (Or.inl ⟨v, k', rfl, hb.symm, hbp, rfl⟩)))
          | ret p' =>
            have hkn : k = vs.length := le_antisymm hk (drop_nil_len hb.symm)
            have hpp : p' = p := hbp
            cases p' with
            | false =>
              simpa [step, wstep] using Inv.phRecv k .done false hk
                (Or.inl (Or.inr (Or.inr (Or.inl ⟨rfl, hpp.symm, rfl, hkn⟩))))
            | true =>
              simpa [step, wstep] using Inv.phRecv k .wpanic false hk
                (Or.inl (Or.inr (Or.inr (Or.inr ⟨rfl, hpp.symm, rfl, hkn⟩))))
        · simpa [step, wstep] using Inv.phRecv k (.dec v b) true hk
            (Or.inr ⟨v, b, rfl, hd, hbp, rfl⟩)
        · simpa [step, wstep] using Inv.phRecv k .done false hk (Or.inl hwa0)
        · simpa [step, wstep] using Inv.phRecv k .wpanic false hk (Or.inl hwa0)
      · simpa [step, wstep, decr_one] using Inv.phSend k v b hk hd hbp
    | false =>
      cases sa with
      | true => simpa [step, cstep] using Inv.phRecv k w true hk hw
      | false =>
        rcases hw with (⟨b, rfl, hb, hbp, hfa⟩ | ⟨v, b, rfl, hd, hbp, hfa⟩ |
          ⟨rfl, hp0, hfa, hkn⟩ | ⟨rfl, hp1, hfa, hkn⟩) | ⟨v, b, rfl, hd, hbp, hfa⟩
        · exact absurd hfa (by simp)
        · exact absurd hfa (by simp)
        · subst hkn
          simpa [step, cstep, List.take_length] using
            @Inv.phStr T vs p .done (Or.inl ⟨rfl, hp0⟩)
        · subst hkn
          simpa [step, cstep, List.take_length] using
            @Inv.phStr T vs p .wpanic (Or.inr ⟨rfl, hp1⟩)
        · exact absurd hfa (by simp)
  | phSend k v b hk hd hb =>
    cases who with
    | true =>
      have hd1 : vs.drop (k + 1) = b.emits := drop_succ_of_drop hd
      have hk1 : k + 1 ≤ vs.length := drop_cons_lt hd
      have hd' : vs.drop k = v :: vs.drop (k + 1) := by rw [hd1]; exact hd
      simpa [step, wstep] using
        Inv.phBuf k v (.run b) true hk1 hd' (Or.inl ⟨b, rfl, hd1.symm, hb, rfl⟩)
    | false =>
      simpa [step, cstep] using Inv.phSend k v b hk hd hb
  | phBuf k v w sa hk hd hw =>
    cases who with
    | true =>
      rcases wstep_zero_cases hk hw [v] .recv with hn | ⟨w', sa', hs, hw'⟩
      · simpa [step, hn] using Inv.phBuf k v w sa hk hd hw
      · simpa [step, hs] using Inv.phBuf k v w' sa' hk hd hw'
    | false =>
      have ht : vs.take (k + 1) = vs.take k ++ [v] := take_succ_of_drop hd
      simpa [step, cstep, ht] using Inv.phIdle (k + 1) w sa hk hw
  | phStr w hw =>
    cases who with
    | true =>
      rcases hw with ⟨rfl, hp0⟩ | ⟨rfl, hp1⟩
      · simpa [step, wstep] using @Inv.phStr T vs p .done (Or.inl ⟨rfl, hp0⟩)
      · simpa [step, wstep] using @Inv.phStr T vs p .wpanic (Or.inr ⟨rfl, hp1⟩)
    | false =>
      rcases hw with ⟨rfl, hp0⟩ | ⟨rfl, hp1⟩
      · have h1 := @Inv.phTerm T vs p 1 2 (by omega) (by omega) hp0
        simpa [step, cstep, replicate_two_eq] using h1
      · have h1 := @Inv.phPanic T vs p 1 1 (by omega) (by omega) hp1
        simpa [step, cstep, replicate_one_eq] using h1
  | phTerm c m hc hm hp =>
    cases who with
    | true => simpa [step, wstep] using Inv.phTerm c m hc hm hp
    | false =>
      have h1 := @Inv.phTerm T vs p c (m + 1) hc (by omega) hp
      simpa [step, cstep, List.replicate_succ'] using h1
  | phPanic c e hc he hp =>
    cases who with
    | true => simpa [step, wstep] using Inv.phPanic c e hc he hp
    | false => simpa [step, cstep] using Inv.phPanic c e hc he hp

/-- The invariant holds along any schedule. -/
theorem inv_run {T : Type} {vs : List T} {p : Bool} (sched : List Bool) :
    ∀ {s : Sys T} {outs : List (PullResult T)}, Inv vs p s outs →
      Inv vs p (run sched s).1 (outs ++ (run sched s).2) := by
  induction sched with
  | nil => intro s outs h; simpa [run] using h
  | cons w rest ih =>
    intro s outs h
    have h2 := ih (inv_step h w)
    simpa [run, List.append_assoc] using h2

/-- Every state reachable from a freshly constructed Generator satisfies the
invariant. -/
theorem inv_reach {T : Type} (b : Body T) (sched : List Bool) :
    Inv b.emits b.panicsAtEnd (run sched (init b)).1 (run sched (init b)).2 := by
  have h0 : Inv b.emits b.panicsAtEnd (init b) [] := by
    have h1 := @Inv.phIdle T b.emits b.panicsAtEnd 0 (.run b) true
      (Nat.zero_le _) (Or.inl ⟨b, rfl, rfl, rfl, rfl⟩)
    simpa [init] using h1
  simpa using inv_run sched h0

/-! ### Consequences of the invariant -/

/-- In every reachable state the handshake counter is `0` or `1`. -/
theorem inv_counter {T : Type} {vs : List T} {p : Bool} {s : Sys T}
    {outs : List (PullResult T)} (h : Inv vs p s outs) :
    s.counter = 0 ∨ s.counter = 1 := by
  cases h with
  | phIdle k w sa hk hw => exact Or.inl rfl
  | phInc k w sa hk hw => exact Or.inl rfl
  | phRecv k w sa hk hw => exact Or.inr rfl
  | phSend k v b hk hd hb => exact Or.inl rfl
  | phBuf k v w sa hk hd hw => exact Or.inl rfl
  | phStr w hw => exact Or.inr rfl
  | phTerm c m hc hm hp => exact (by omega : c = 0 ∨ c = 1)
  | phPanic c e hc he hp => exact (by omega : c = 0 ∨ c = 1)

/-- Whenever the worker is at the `fetch_sub` (between the successful load
and the decrement), the counter is exactly `1`. -/
theorem inv_dec_counter {T : Type} {vs : List T} {p : Bool} {s : Sys T}
    {outs : List (PullResult T)} (h : Inv vs p s outs)
    (v : T) (b : Body T) (hvb : s.worker = .dec v b) : s.counter = 1 := by
  cases h with
  | phIdle k w sa hk hw =>
    rcases hw with ⟨b', rfl, _, _, _⟩ | ⟨v', b', rfl, _, _, _⟩ | ⟨rfl, _, _, _⟩ | ⟨rfl, _, _, _⟩ <;>
      simp at hvb
  | phInc k w sa hk hw =>
    rcases hw with ⟨b', rfl, _, _, _⟩ | ⟨v', b', rfl, _, _, _⟩ | ⟨rfl, _, _, _⟩ | ⟨rfl, _, _, _⟩ <;>
      simp at hvb
  | phRecv k w sa hk hw => rfl
  | phSend k v' b' hk hd hb => simp at hvb
  | phBuf k v' w sa hk hd hw =>
    rcases hw with ⟨b', rfl, _, _, _⟩ | ⟨v', b', rfl, _, _, _⟩ | ⟨rfl, _, _, _⟩ | ⟨rfl, _, _, _⟩ <;>
      simp at hvb
  | phStr w hw => rcases hw with ⟨rfl, _⟩ | ⟨rfl, _⟩ <;> simp at hvb
  | phTerm c m hc hm hp => simp at hvb
  | phPanic c e hc he hp => simp at hvb

/-- For a normally returning body, every pull trace is the `item`-image of a
prefix of the emitted values followed by `exhausted` results, and `exhausted`
appears only once the whole sequence has been delivered. -/
theorem inv_outs {T : Type} {vs : List T} {p : Bool} {s : Sys T}
    {outs : List (PullResult T)} (h : Inv vs p s outs) (hpf : p = false) :
    ∃ k j, k ≤ vs.length ∧ (0 < j → k = vs.length) ∧
      outs = (vs.take k).map .item ++ List.replicate j .exhausted := by
  cases h with
  | phIdle k w sa hk hw => exact ⟨k, 0, hk, by omega, by simp⟩
  | phInc k w sa hk hw => exact ⟨k, 0, hk, by omega, by simp⟩
  | phRecv k w sa hk hw => exact ⟨k, 0, hk, by omega, by simp⟩
  | phSend k v b hk hd hb => exact ⟨k, 0, hk, by omega, by simp⟩
  | phBuf k v w sa hk hd hw => exact ⟨k, 0, by omega, by omega, by simp⟩
  | phStr w hw =>
    exact ⟨vs.length, 1, le_refl _, fun _ => rfl,
      by simp [List.take_length, replicate_one_eq]⟩
  | phTerm c m hc hm hp =>
    exact ⟨vs.length, m, le_refl _, fun _ => rfl, by simp [List.take_length]⟩
  | phPanic c e hc he hp => exact absurd (hpf ▸ hp) (by simp)

/-! ### A fair canonical schedule delivering the whole sequence -/

/-- Seven steps that, from the quiescent phase, deliver exactly the next
value: consumer registers a pull (two steps), worker passes the spin loop,
decrements and sends (four steps), consumer receives (one step). -/
def canonBlock : List Bool := [false, false, true, true, true, true, false]

/-- Fair schedule: one `canonBlock` per emitted value, one worker step to
finish the body, then `m` further pulls by the consumer. -/
def canon {T : Type} : Body T → Nat → List Bool
  | .yld _ k, m => canonBlock ++ canon k m
  | .ret _, m => true :: List.replicate m false

theorem run_append_fst {T : Type} (a c : List Bool) (s : Sys T) :
    (run (a ++ c) s).1 = (run c (run a s).1).1 := by
  induction a generalizing s with
  | nil => simp [run]
  | cons w rest ih => simp [run, ih]

theorem run_append_snd {T : Type} (a c : List Bool) (s : Sys T) :
    (run (a ++ c) s).2 = (run a s).2 ++ (run c (run a s).1).2 := by
  induction a generalizing s with
  | nil => simp [run]
  | cons w rest ih => simp [run, ih]

theorem canonBlock_run {T : Type} (v : T) (b : Body T) :
    run canonBlock (⟨0, [], true, true, true, .run (.yld v b), .idle⟩ : Sys T)
      = (⟨0, [], true, true, true, .run b, .idle⟩, [.item v]) := by
  simp [canonBlock, run, step, wstep, cstep, incr_zero, decr_one]

theorem run_drain {T : Type} (j : Nat) :
    run (List.replicate j false) (⟨0, [], false, true, false, .done, .idle⟩ : Sys T)
      = (⟨0, [], false, true, false, .done, .idle⟩, List.replicate j .exhausted) := by
  induction j with
  | zero => rfl
  | succ j ih => simp [List.replicate_succ, run, step, cstep, ih]

/-- Running the canonical schedule pulls exactly the emitted values in order,
followed by `m` `exhausted` results. -/
theorem canon_snd {T : Type} (b : Body T) (hp : b.panicsAtEnd = false) (m : Nat) :
    (run (canon b m) (init b)).2 = b.emits.map .item ++ List.replicate m .exhausted := by
  induction b with
  | ret p' =>
    have hp' : p' = false := hp
    subst hp'
    cases m with
    | zero => rfl
    | succ j =>
      simp [canon, init, List.replicate_succ, run, step, wstep, cstep, run_drain,
        Body.emits]
  | yld v k ih =>
    have hpk : k.panicsAtEnd = false := hp
    have h1 := canonBlock_run v k
    have h2 : canon (Body.yld v k) m = canonBlock ++ canon k m := rfl
    rw [h2]
    have hinit : (init (Body.yld v k) : Sys T)
        = ⟨0, [], true, true, true, .run (.yld v k), .idle⟩ := rfl
    rw [run_append_snd, hinit, h1]
    have hik : (⟨0, [], true, true, true, .run k, .idle⟩ : Sys T) = init k := rfl
    rw [hik, ih hpk]
    simp [Body.emits]

/-! ### Trace accounting -/

theorem itemsOf_append {T : Type} (a c : List (PullResult T)) :
    itemsOf (a ++ c) = itemsOf a ++ itemsOf c := by
  simp [itemsOf]

theorem itemsOf_map_item {T : Type} (l : List T) :
    itemsOf (l.map .item) = l := by
  induction l with
  | nil => rfl
  | cons x xs ih => simpa [itemsOf, List.filterMap_cons] using ih

theorem itemsOf_replicate_ex {T : Type} (m : Nat) :
    itemsOf (List.replicate m (.exhausted : PullResult T)) = [] := by
  induction m with
  | zero => rfl
  | succ m ih => simp [itemsOf, List.replicate_succ, List.filterMap_cons]

theorem exCount_append {T : Type} (a c : List (PullResult T)) :
    exCount (a ++ c) = exCount a + exCount c := by
  simp [exCount]

theorem exCount_map_item {T : Type} (l : List T) :
    exCount (l.map .item) = 0 := by
  induction l with
  | nil => rfl
  | cons x xs ih => simp [exCount, List.filter_cons]

theorem exCount_replicate {T : Type} (m : Nat) :
    exCount (List.replicate m (.exhausted : PullResult T)) = m := by
  induction m with
  | zero => rfl
  | succ m ih => simp [exCount, List.replicate_succ, List.filter_cons, ih]

theorem exCount_single_ex {T : Type} :
    exCount ([.exhausted] : List (PullResult T)) = 1 := rfl

theorem exCount_take_map_item {T : Type} (k : Nat) (l : List T) :
    exCount (List.take k (l.map PullResult.item)) = 0 := by
  rw [← List.map_take]
  exact exCount_map_item _

theorem itemsOf_single_ex {T : Type} :
    itemsOf ([.exhausted] : List (PullResult T)) = [] := rfl

/-! ### Handle monotonicity (the terminal state is absorbing) -/

theorem wstep_handle {T : Type} {s s' : Sys T} (h : wstep s = some s') :
    s'.handle = s.handle := by
  rcases s with ⟨c, buf, sa, ra, hd, w, cpc⟩
  cases w with
  | run b =>
    cases b with
    | ret p => cases p <;> simp [wstep] at h <;> rw [← h]
    | yld v k => simp [wstep] at h; rw [← h]
  | spin v k =>
    by_cases hc : c = 0
    · simp [wstep, hc] at h
    · simp [wstep, hc] at h; rw [← h]
  | dec v k => simp [wstep] at h; rw [← h]
  | send v k => cases ra <;> simp [wstep] at h <;> rw [← h]
  | done => simp [wstep] at h
  | wpanic => simp [wstep] at h

theorem cstep_handle {T : Type} {s : Sys T} {q : Sys T × Option (PullResult T)}
    (h : cstep s = some q) (hf : s.handle = false) : q.1.handle = false := by
  rcases s with ⟨c, buf, sa, ra, hd, w, cpc⟩
  have hd0 : hd = false := hf
  subst hd0
  cases cpc with
  | idle => simp [cstep] at h; rw [← h]
  | toInc => simp [cstep] at h; rw [← h]
  | recv =>
    cases buf with
    | nil =>
      cases sa with
      | false => simp [cstep] at h; rw [← h]
      | true => simp [cstep] at h
    | cons x r => simp [cstep] at h; rw [← h]
  | cpanic => simp [cstep] at h

theorem step_handle_mono {T : Type} (s : Sys T) (hf : s.handle = false) (who : Bool) :
    (step who s).1.handle = false := by
  cases who with
  | true =>
    cases hws : wstep s with
    | none => simpa [step, hws] using hf
    | some s' =>
      have hh := wstep_handle hws
      simp [step, hws, hh, hf]
  | false =>
    cases hcs : cstep s with
    | none => simpa [step, hcs] using hf
    | some q =>
      have hh := cstep_handle hcs hf
      simp [step, hcs, hh]

/-! ### `yield_from` unfolding -/

theorem yieldFrom_nil {T : Type} (k : Body T) : yieldFrom [] k = k := rfl

theorem yieldFrom_cons {T : Type} (x : T) (xs : List T) (k : Body T) :
    yieldFrom (x :: xs) k = Body.yld x (yieldFrom xs k) := rfl

theorem emits_yieldFrom {T : Type} (l : List T) (k : Body T) :
    (yieldFrom l k).emits = l ++ k.emits := by
  induction l with
  | nil => rfl
  | cons x xs ih =>
    rw [yieldFrom_cons]
    show x :: (yieldFrom xs k).emits = x :: (xs ++ k.emits)
    rw [ih]

theorem panics_yieldFrom {T : Type} (l : List T) (k : Body T) :
    (yieldFrom l k).panicsAtEnd = k.panicsAtEnd := by
  induction l with
  | nil => rfl
  | cons x xs ih => simpa [yieldFrom_cons, Body.panicsAtEnd] using ih

/-- A state is reachable when some interleaving of the two threads leads the
freshly constructed Generator to it. -/
def Reachable {T : Type} (b : Body T) (s : Sys T) : Prop :=
  ∃ sched : List Bool, (run sched (init b)).1 = s

theorem incr_one : incr 1 = 2 := by decide

/-- Trace shape needed for claim C8: once an exhausted sentinel has been
observed, the full sequence was delivered and the worker has finished; after
a second sentinel the join handle has certainly been consumed. -/
theorem inv_c8 {T : Type} {vs : List T} {p : Bool} {s : Sys T} {outs : List (PullResult T)}
    (h : Inv vs p s outs) (hpf : p = false) (hex : 1 ≤ exCount outs) :
    itemsOf outs = vs ∧ s.worker = .done ∧ (2 ≤ exCount outs → s.handle = false) := by
  subst hpf
  cases h with
  | phIdle k w sa hk hw => exact absurd hex (by simp [exCount_take_map_item])
  | phInc k w sa hk hw => exact absurd hex (by simp [exCount_take_map_item])
  | phRecv k w sa hk hw => exact absurd hex (by simp [exCount_take_map_item])
  | phSend k v b hk hd hb => exact absurd hex (by simp [exCount_take_map_item])
  | phBuf k v w sa hk hd hw => exact absurd hex (by simp [exCount_take_map_item])
  | phStr w hw =>
    rcases hw with ⟨rfl, _⟩ | ⟨rfl, hp1⟩
    · refine ⟨?_, rfl, ?_⟩
      · rw [itemsOf_append, itemsOf_map_item, itemsOf_single_ex, List.append_nil]
      · intro h2
        rw [exCount_append, exCount_map_item, exCount_single_ex] at h2
        omega
    · exact absurd hp1 (by simp)
  | phTerm c m hc hm hp =>
    refine ⟨?_, rfl, fun _ => rfl⟩
    rw [itemsOf_append, itemsOf_map_item, itemsOf_replicate_ex, List.append_nil]
  | phPanic c e hc he hp => exact absurd hp (by simp)

/-! ### Claims -/

/-- C1: for a body that emits a finite sequence `v1..vn` and then returns,
pulling the Generator yields `Some(v1), ..., Some(vn)` in that order and
`None` afterwards: under every interleaving the pull trace is the in-order
`item`-image of a prefix of the emitted values with `None` appearing only
after all of them were delivered (nothing skipped, duplicated or invented),
and the fair canonical schedule delivers the whole sequence followed by
`None` on each of the `m` further pulls. -/
theorem C1_pull_sequence {T : Type} (b : Body T) (hp : b.panicsAtEnd = false)
    (sched : List Bool) (m : Nat) :
    (∃ k j, k ≤ b.emits.length ∧ (0 < j → k = b.emits.length) ∧
      (run sched (init b)).2
        = (b.emits.take k).map PullResult.item ++ List.replicate j .exhausted)
    ∧ (run (canon b m) (init b)).2
        = b.emits.map PullResult.item ++ List.replicate m .exhausted :=
  ⟨inv_outs (inv_reach b sched) hp, canon_snd b hp m⟩

/-- Witness for C1: the body emitting `1, 2, 3` pulled to completion plus two
further pulls yields `Some 1, Some 2, Some 3, None, None`. -/
theorem C1_pull_sequence_witness :
    (run (canon (Body.yld 1 (Body.yld 2 (Body.yld 3 (Body.ret false)))) 2)
        (init (Body.yld 1 (Body.yld 2 (Body.yld 3 (Body.ret false)))))).2
      = (Body.yld 1 (Body.yld 2 (Body.yld 3 (Body.ret false)))).emits.map PullResult.item
        ++ List.replicate 2 PullResult.exhausted :=
  (C1_pull_sequence (Body.yld 1 (Body.yld 2 (Body.yld 3 (Body.ret false)))) rfl [] 2).2

/-- C2: `Yielder::yield` first waits for the counter to be observed non-zero
(at counter `0` the spin loop makes no progress and nothing is sent), then
decrements it by exactly one (consuming one registered pull), and only then
sends the value on the channel. -/
theorem C2_yield_handshake {T : Type} (b : Body T) (s : Sys T) (hr : Reachable b s)
    (v : T) (k : Body T) :
    (s.worker = .spin v k → s.counter = 0 → wstep s = none)
    ∧ (s.worker = .spin v k → s.counter ≠ 0 → wstep s = some { s with worker := .dec v k })
    ∧ (s.worker = .dec v k → s.counter = 1 ∧
        wstep s = some { s with counter := s.counter - 1, worker := .send v k })
    ∧ (s.worker = .send v k → s.receiverAlive = true →
        wstep s = some { s with buf := s.buf ++ [v], worker := .run k }) := by
  obtain ⟨sched, rfl⟩ := hr
  refine ⟨?_, ?_, ?_, ?_⟩
  · intro hw hc; simp [wstep, hw, hc]
  · intro hw hc; simp [wstep, hw, hc]
  · intro hw
    have hc := inv_dec_counter (inv_reach b sched) v k hw
    exact ⟨hc, by simp [wstep, hw, hc, decr_one]⟩
  · intro hw hra; simp [wstep, hw, hra]

/-- Witness for C2: a freshly spawned worker spinning before any pull has
been registered makes no progress and sends nothing. -/
theorem C2_yield_handshake_witness :
    wstep ((run [true] (init (Body.yld 5 (Body.ret false)))).1) = none :=
  (C2_yield_handshake (Body.yld 5 (Body.ret false))
    ((run [true] (init (Body.yld 5 (Body.ret false)))).1)
    ⟨[true], rfl⟩ 5 (Body.ret false)).1 rfl rfl

/-- C3: with the join handle present and the worker not finished, `next`
moves past the `is_finished` check, increments the counter by exactly one,
and blocks on `recv`: an available item is returned as `Some(item)`; the
channel observed closed (sender dropped) yields `None`. -/
theorem C3_next_pull {T : Type} (b : Body T) (s : Sys T) (hr : Reachable b s) :
    (s.cons = .idle → s.handle = true → isFinished s.worker = false →
        cstep s = some ({ s with cons := .toInc }, none))
    ∧ (s.cons = .toInc →
        cstep s = some ({ s with counter := s.counter + 1, cons := .recv }, none))
    ∧ (∀ x r, s.cons = .recv → s.buf = x :: r →
        cstep s = some ({ s with buf := r, cons := .idle }, some (.item x)))
    ∧ (s.cons = .recv → s.buf = [] → s.senderAlive = false →
        cstep s = some ({ s with cons := .idle }, some .exhausted)) := by
  obtain ⟨sched, rfl⟩ := hr
  refine ⟨?_, ?_, ?_, ?_⟩
  · intro h1 h2 h3
    cases hw : (run sched (init b)).1.worker with
    | run b' => simp [cstep, h1, h2, hw]
    | spin v' k' => simp [cstep, h1, h2, hw]
    | dec v' k' => simp [cstep, h1, h2, hw]
    | send v' k' => simp [cstep, h1, h2, hw]
    | done => rw [hw] at h3; simp [isFinished] at h3
    | wpanic => rw [hw] at h3; simp [isFinished] at h3
  · intro h1
    rcases inv_counter (inv_reach b sched) with hc | hc <;>
      simp [cstep, h1, hc, incr_zero, incr_one]
  · intro x r h1 h2; simp [cstep, h1, h2]
  · intro h1 h2 h3; simp [cstep, h1, h2, h3]

/-- Witness for C3: the first pull on a fresh Generator registers the pull
request. -/
theorem C3_next_pull_witness :
    cstep (init (Body.yld 5 (Body.ret false)))
      = some ({ init (Body.yld 5 (Body.ret false)) with cons := CPC.toInc }, none) :=
  (C3_next_pull (Body.yld 5 (Body.ret false)) (init (Body.yld 5 (Body.ret false)))
    ⟨[], rfl⟩).1 rfl rfl rfl

/-- C4: a pull that finds the handle present and the worker finished
normally joins it, clears the handle and returns `None` without receiving —
counter and buffer untouched, so no buffered item is drained; with the handle
already `None`, every pull returns `None` immediately with the state fully
unchanged, and no step of either thread ever resurrects a cleared handle
(the terminal state is absorbing). -/
theorem C4_terminal {T : Type} (s : Sys T) :
    (s.cons = .idle → s.handle = true → s.worker = .done →
        cstep s = some ({ s with handle := false }, some .exhausted))
    ∧ (s.cons = .idle → s.handle = false → cstep s = some (s, some .exhausted))
    ∧ (s.handle = false → ∀ who, (step who s).1.handle = false) := by
  refine ⟨?_, ?_, ?_⟩
  · intro h1 h2 h3; simp [cstep, h1, h2, h3]
  · intro h1 h2; simp [cstep, h1, h2]
  · intro h1 who; exact step_handle_mono s h1 who

/-- Witness for C4 at a state with the worker finished and an outstanding
stranded pull request. -/
theorem C4_terminal_witness :
    cstep (⟨1, [], false, true, true, WPC.done, CPC.idle⟩ : Sys Nat)
      = some ({ (⟨1, [], false, true, true, WPC.done, CPC.idle⟩ : Sys Nat) with
          handle := false }, some PullResult.exhausted) :=
  (C4_terminal (⟨1, [], false, true, true, WPC.done, CPC.idle⟩ : Sys Nat)).1 rfl rfl rfl

/-- C5: with the single consumer and single producer of the model, in every
reachable state — under any interleaving — the handshake counter is `0` or
`1`. -/
theorem C5_counter_bounded {T : Type} (b : Body T) (sched : List Bool) :
    (run sched (init b)).1.counter = 0 ∨ (run sched (init b)).1.counter = 1 :=
  inv_counter (inv_reach b sched)

/-- C6: `yield_from` unfolds to exactly one `yield` call per source element
in source order (hence the same per-element blocking semantics), and a body
that yields-from `A` and then yields-from `B` emits exactly `A ++ B`, which
the consumer pulls as `A ++ B` followed by `None`s. -/
theorem C6_yield_from_concat {T : Type} (A B : List T) (x : T) (xs : List T)
    (k : Body T) (m : Nat) :
    (yieldFrom ([] : List T) k = k
      ∧ yieldFrom (x :: xs) k = Body.yld x (yieldFrom xs k))
    ∧ (yieldFrom A (yieldFrom B (Body.ret false))).emits = A ++ B
    ∧ (run (canon (yieldFrom A (yieldFrom B (Body.ret false))) m)
          (init (yieldFrom A (yieldFrom B (Body.ret false))))).2
        = (A ++ B).map PullResult.item ++ List.replicate m .exhausted := by
  have hem : (yieldFrom A (yieldFrom B (Body.ret false))).emits = A ++ B := by
    rw [emits_yieldFrom, emits_yieldFrom]
    simp [Body.emits]
  have hpa : (yieldFrom A (yieldFrom B (Body.ret false))).panicsAtEnd = false := by
    rw [panics_yieldFrom, panics_yieldFrom]
    rfl
  refine ⟨⟨yieldFrom_nil k, yieldFrom_cons x xs k⟩, hem, ?_⟩
  rw [canon_snd _ hpa m, hem]

/-- C7: a worker that terminated by unwinding is joined by the next pull,
which propagates the failure (`join().unwrap()`) as a failure of that pull
call — not the exhausted sentinel — and the consumer cannot continue past
it. -/
theorem C7_panic_propagates {T : Type} (s : Sys T) :
    (s.cons = .idle → s.handle = true → s.worker = .wpanic →
        cstep s = some ({ s with handle := false, cons := .cpanic }, some .panicked)
        ∧ cstep ({ s with handle := false, cons := .cpanic } : Sys T) = none)
    ∧ (PullResult.panicked : PullResult T) ≠ .exhausted := by
  refine ⟨?_, by simp⟩
  intro h1 h2 h3
  exact ⟨by simp [cstep, h1, h2, h3], by simp [cstep]⟩

/-- Witness for C7: a body that panics immediately; the first pull joins the
panicked worker and fails rather than returning the sentinel. -/
theorem C7_panic_propagates_witness :
    cstep ((run [true] (init (Body.ret true : Body Nat))).1)
      = some ({ (run [true] (init (Body.ret true : Body Nat))).1 with
          handle := false, cons := CPC.cpanic }, some PullResult.panicked) :=
  ((C7_panic_propagates ((run [true] (init (Body.ret true : Body Nat))).1)).1
    rfl rfl rfl).1

/-- C8 fails as stated: with the body emitting `1`, there is an interleaving
in which the consumer pulls `Some 1` and then `None` (the stranded-pull path:
it registers its pull before the worker finishes and observes the channel
closed), yet the join handle has NOT been consumed — the worker is joined
only by the next pull that finds it finished. -/
theorem C8_counterexample :
    (run [false, false, true, true, true, true, false, false, false, true, false]
        (init (Body.yld 1 (Body.ret false)))).2
      = [PullResult.item 1, PullResult.exhausted]
    ∧ (run [false, false, true, true, true, true, false, false, false, true, false]
        (init (Body.yld 1 (Body.ret false)))).1.handle = true :=
  ⟨rfl, rfl⟩

/-- C8 (amended): once the consumer has received the exhausted sentinel, the
pulled values equal the emitted sequence element-for-element and the worker
has finished execution (no live execution unit remains); the join handle is
consumed no later than the second sentinel-returning pull — a pull may
observe closure before the worker is joined, in which case the very next
pull joins it. -/
theorem C8_amended {T : Type} (b : Body T) (hp : b.panicsAtEnd = false)
    (sched : List Bool) (hex : 1 ≤ exCount (run sched (init b)).2) :
    itemsOf (run sched (init b)).2 = b.emits
    ∧ (run sched (init b)).1.worker = .done
    ∧ (2 ≤ exCount (run sched (init b)).2 → (run sched (init b)).1.handle = false) :=
  inv_c8 (inv_reach b sched) hp hex

/-- Witness for C8 (amended), at the body emitting `1` pulled to exhaustion
twice. -/
theorem C8_amended_witness :
    itemsOf (run (canon (Body.yld 1 (Body.ret false)) 2)
        (init (Body.yld 1 (Body.ret false)))).2
      = (Body.yld 1 (Body.ret false)).emits
    ∧ (run (canon (Body.yld 1 (Body.ret false)) 2)
        (init (Body.yld 1 (Body.ret false)))).1.worker = WPC.done
    ∧ (2 ≤ exCount (run (canon (Body.yld 1 (Body.ret false)) 2)
          (init (Body.yld 1 (Body.ret false)))).2
        → (run (canon (Body.yld 1 (Body.ret false)) 2)
            (init (Body.yld 1 (Body.ret false)))).1.handle = false) :=
  C8_amended (Body.yld 1 (Body.ret false)) rfl
    (canon (Body.yld 1 (Body.ret false)) 2) (by decide)

/-- C9: with the Generator (receiver) dropped, the send inside
`Yielder::yield` fails and the worker panics — nothing is buffered and the
worker can never step again, an unrecoverable failure of the emit call. -/
theorem C9_send_after_drop {T : Type} (s : Sys T) (v : T) (k : Body T) :
    (s.worker = .send v k → s.receiverAlive = false →
        wstep s = some { s with worker := .wpanic, senderAlive := false })
    ∧ (s.worker = .wpanic → wstep s = none) := by
  constructor
  · intro h1 h2; simp [wstep, h1, h2]
  · intro h1; simp [wstep, h1]

/-- Witness for C9 at a worker about to send to a dropped receiver. -/
theorem C9_send_after_drop_witness :
    wstep (⟨1, [], true, false, false, WPC.send 5 (Body.ret false), CPC.idle⟩ : Sys Nat)
      = some { (⟨1, [], true, false, false, WPC.send 5 (Body.ret false), CPC.idle⟩ : Sys Nat)
          with worker := WPC.wpanic, senderAlive := false } :=
  (C9_send_after_drop
    (⟨1, [], true, false, false, WPC.send 5 (Body.ret false), CPC.idle⟩ : Sys Nat)
    5 (Body.ret false)).1 rfl rfl

/-- C10: the `fetch_sub` in `Yielder::yield` never wraps below zero: in any
reachable state where the worker is at the decrement (having observed the
counter non-zero, with no other decrementer), the counter is at least one
and the wrapping decrement equals plain subtraction by one. -/
theorem C10_no_underflow {T : Type} (b : Body T) (sched : List Bool) (v : T) (k : Body T)
    (hd : (run sched (init b)).1.worker = .dec v k) :
    1 ≤ (run sched (init b)).1.counter
    ∧ decr (run sched (init b)).1.counter = (run sched (init b)).1.counter - 1 := by
  have hc := inv_dec_counter (inv_reach b sched) v k hd
  rw [hc]
  exact ⟨le_refl 1, decr_one⟩

/-- Witness for C10: a schedule driving the worker to the decrement. -/
theorem C10_no_underflow_witness :
    1 ≤ (run [false, false, true, true] (init (Body.yld 7 (Body.ret false)))).1.counter
    ∧ decr (run [false, false, true, true] (init (Body.yld 7 (Body.ret false)))).1.counter
      = (run [false, false, true, true] (init (Body.yld 7 (Body.ret false)))).1.counter - 1 :=
  C10_no_underflow (Body.yld 7 (Body.ret false)) [false, false, true, true] 7
    (Body.ret false) rfl

end Regen
